import Mathlib

/-!
Verification of the downloads organizer (`src/sorting_script.py`).

The script is embedded shallowly:

* `Entry` models one top-level filesystem entry of the target root, carrying
  its name, its is-directory flag, and the value of the Python expression
  `(today - datetime.fromtimestamp(item.stat().st_mtime)).days`.
* `pySuffix` / `pyStem` model `pathlib.PurePath.suffix` / `.stem` (split at the
  last dot of the name, empty when the dot is leading or trailing).
* `category_extensions` is the literal mapping from the script, kept as an
  ordered association list (Python dicts iterate in insertion order).
* `destDirFor` models lines 71-96: the age check first, then the first
  matching category, then the catch-all.
* `move_file` models the collision-resolving move of lines 100-121 as a
  transformation of the destination directory listing; the unbounded `while`
  loop of the script is realised with fuel `length + 1`, which is proved
  sufficient.
* `organize_downloads` models the whole run over an abstract filesystem `FS`;
  the outcome of `shutil.move` for each source file is an oracle
  `fails : String → Bool`, a failed move leaving the file in place and only
  logging an error (the script catches every exception at the move call).
* The observable log (directory creations, moves, per-file errors, the missing
  root error and the final summary line) is modelled by `LogMsg` values.
-/

namespace Organizer

/-- A top-level filesystem entry of the target root: name, is-directory flag,
and the integer day difference `(today - mtime).days`. -/
structure Entry where
  name : String
  isDir : Bool
  ageDays : Int
deriving DecidableEq

/-- The value of `os.path.basename(__file__)` for this script. -/
def scriptName : String := "sorting_script.py"

/-- The `category_extensions` dict of the script, in definition order. -/
def category_extensions : List (String × List String) :=
  [("Documents", [".pdf", ".docx", ".txt", ".doc", ".rtf", ".odt", ".xlsx",
                  ".xls", ".pptx", ".ppt", ".csv"]),
   ("Images", [".jpg", ".jpeg", ".png", ".gif", ".bmp", ".tiff", ".svg",
               ".webp"]),
   ("Audio", [".mp3", ".wav", ".aac", ".flac", ".ogg", ".m4a"]),
   ("Video", [".mp4", ".avi", ".mkv", ".mov", ".wmv", ".flv", ".webm"]),
   ("Archives", [".zip", ".rar", ".7z", ".tar", ".gz", ".bz2"]),
   ("Code", [".py", ".java", ".html", ".css", ".js", ".php", ".c", ".cpp",
             ".h", ".rb", ".json", ".xml"]),
   ("Executables", [".exe", ".msi", ".app", ".dmg", ".deb", ".rpm"])]

/-- Index of the last dot in a character list, if any. -/
def lastDotIdx : List Char → Option Nat
  | [] => none
  | c :: cs =>
    match lastDotIdx cs with
    | some i => some (i + 1)
    | none => if c = '.' then some 0 else none

/-- `PurePath.suffix`: the part of the name from its last dot on, empty when
the last dot is the first or the final character of the name. -/
def pySuffix (name : String) : String :=
  let cs := name.toList
  match lastDotIdx cs with
  | some i => if 0 < i ∧ i + 1 < cs.length then String.mk (cs.drop i) else ""
  | none => ""

/-- `PurePath.stem`: the name with `pySuffix` removed. -/
def pyStem (name : String) : String :=
  let cs := name.toList
  match lastDotIdx cs with
  | some i => if 0 < i ∧ i + 1 < cs.length then String.mk (cs.take i) else name
  | none => name

/-- `str.lower()`, restricted to the ASCII lowering the extensions need. -/
def lowerStr (s : String) : String := String.mk (s.toList.map Char.toLower)

/-- Line 72 of the script: `item.suffix.lower()`. -/
def fileExt (name : String) : String := lowerStr (pySuffix name)

/-- Lines 82-96: the first category whose extension list contains `ext`,
defaulting to the catch-all. -/
def extClass (ext : String) : String :=
  match category_extensions.find? (fun p => p.2.contains ext) with
  | some p => p.1
  | none => "Others"

/-- Lines 74-96: destination subdirectory of a processed entry — the age
check dominates, then extension classification. -/
def destDirFor (e : Entry) : String :=
  if e.ageDays > 30 then "Old Files" else extClass (fileExt e.name)

/-- Line 68: an entry is skipped when it is a directory or is the script
itself. -/
def skipsItem (e : Entry) : Bool := e.isDir || e.name == scriptName

/-- Decimal digit character, as produced by Python string formatting. -/
def digitChar (n : Nat) : Char := Char.ofNat (48 + n)

/-- Fuelled decimal rendering of a natural number (most significant first). -/
def natDigitsCore : Nat → Nat → List Char → List Char
  | 0, _, acc => acc
  | fuel + 1, n, acc =>
    if n < 10 then digitChar n :: acc
    else natDigitsCore fuel (n / 10) (digitChar (n % 10) :: acc)

/-- Decimal rendering of a natural number, as in the f-string of line 110. -/
def natRepr (n : Nat) : String := String.mk (natDigitsCore n n [])

/-- Line 110: the candidate name `f"{base_name}_{counter}{extension}"`. -/
def candidate (stem ext : String) (n : Nat) : String :=
  stem ++ "_" ++ natRepr n ++ ext

/-- Lines 109-115: scan counters upward from `counter` until the candidate
name is free in the destination directory; `fuel` bounds the scan (the
script's loop is unbounded, and the chosen fuel is proved sufficient). -/
def findFree (occupied : List String) (stem ext : String) : Nat → Nat → Option Nat
  | 0, _ => none
  | fuel + 1, counter =>
    if candidate stem ext counter ∈ occupied then
      findFree occupied stem ext fuel (counter + 1)
    else some counter

/-- Lines 102-115: the final name used at the destination — the original name
when it is free, otherwise the first free numbered candidate. -/
def resolveDest (occupied : List String) (destName : String) : String :=
  if destName ∈ occupied then
    match findFree occupied (pyStem destName) (pySuffix destName)
        (occupied.length + 1) 1 with
    | some n => candidate (pyStem destName) (pySuffix destName) n
    | none => destName
  else destName

/-- The effect of `move_file` (lines 100-121) on the destination directory
listing: the resolved name is added, nothing is removed. -/
def move_file (occupied : List String) (destName : String) : List String :=
  resolveDest occupied destName :: occupied

/-- One observable log line of the script. -/
inductive LogMsg where
  | createdDir : String → LogMsg
  | movedTo : String → String → String → LogMsg
  | moveError : String → LogMsg
  | rootMissing : LogMsg
  | summary : Nat → Nat → LogMsg
deriving DecidableEq

/-- State threaded through the processing loop of lines 62-97: remaining root
entries, the files inside the category subdirectories (as subdirectory-name /
file-name pairs), the two counters, and the log so far. -/
structure OrgState where
  root : List Entry
  sub : List (String × String)
  moved : Nat
  skipped : Nat
  log : List LogMsg
deriving DecidableEq

/-- The file names currently inside subdirectory `d`. -/
def subContents (sub : List (String × String)) (d : String) : List String :=
  (sub.filter (fun p => p.1 == d)).map Prod.snd

/-- Moving entry `e` into subdirectory `destDir`: resolve the collision, then
either fail (error logged, file left in place, counter still bumped at line
79/88/96) or succeed (file leaves the root, resolved name appears in the
subdirectory). -/
def moveInto (fails : String → Bool) (st : OrgState) (e : Entry)
    (destDir : String) : OrgState :=
  let finalName := resolveDest (subContents st.sub destDir) e.name
  if fails e.name then
    { st with moved := st.moved + 1, log := st.log ++ [LogMsg.moveError e.name] }
  else
    { st with root := st.root.erase e,
              sub := st.sub ++ [(destDir, finalName)],
              moved := st.moved + 1,
              log := st.log ++ [LogMsg.movedTo e.name destDir finalName] }

/-- Lines 66-96: one loop iteration — skip directories and the script itself
(without touching any counter, as in the source), otherwise move the entry
into its computed destination. -/
def processItem (fails : String → Bool) (st : OrgState) (e : Entry) : OrgState :=
  if skipsItem e then st else moveInto fails st e (destDirFor e)

/-- The nine subdirectory names, in creation order (lines 43-59). -/
def catNames : List String :=
  category_extensions.map Prod.fst ++ ["Others", "Old Files"]

/-- Lines 44-47 for one name: create the subdirectory only when no entry of
that name exists, logging the creation. -/
def mkdirIfAbsent (st : List Entry × List LogMsg) (name : String) :
    List Entry × List LogMsg :=
  if st.1.any (fun e => e.name == name) then st
  else (st.1 ++ [⟨name, true, 0⟩], st.2 ++ [LogMsg.createdDir name])

/-- Lines 42-59: ensure all nine subdirectories exist, returning the new root
listing and the creation log. -/
def prepare (entries : List Entry) : List Entry × List LogMsg :=
  catNames.foldl mkdirIfAbsent (entries, [])

/-- The abstract filesystem seen by one run: whether the target root exists,
its top-level entries, and the files already inside subdirectories. -/
structure FS where
  rootExists : Bool
  rootEntries : List Entry
  subFiles : List (String × String)
deriving DecidableEq

/-- The whole run (lines 11-98): abort when the root is missing, otherwise
prepare the subdirectories, fold the processing loop over the listing, and
emit the summary line. -/
def organize_downloads (fails : String → Bool) (fs : FS) : FS × List LogMsg :=
  if fs.rootExists then
    let prep := prepare fs.rootEntries
    let st0 : OrgState :=
      { root := prep.1, sub := fs.subFiles, moved := 0, skipped := 0,
        log := prep.2 }
    let st := prep.1.foldl (processItem fails) st0
    ({ rootExists := true, rootEntries := st.root, subFiles := st.sub },
      st.log ++ [LogMsg.summary st.moved st.skipped])
  else (fs, [LogMsg.rootMissing])

/-- The loop state reached at the end of the scan of a run on `fs`. -/
def runState (fails : String → Bool) (fs : FS) : OrgState :=
  (prepare fs.rootEntries).1.foldl (processItem fails)
    { root := (prepare fs.rootEntries).1, sub := fs.subFiles, moved := 0,
      skipped := 0, log := (prepare fs.rootEntries).2 }

/-- Whether a log line is a move attempt (success or error) on source
`name`. -/
def isAttemptOn (name : String) : LogMsg → Bool
  | LogMsg.movedTo s _ _ => s == name
  | LogMsg.moveError s => s == name
  | _ => false

/-- Number of move attempts on source `name` recorded in a log. -/
def attemptsFor (name : String) (log : List LogMsg) : Nat :=
  (log.filter (isAttemptOn name)).length

/-- Whether a log ends with the final summary line. -/
def endsWithSummary (log : List LogMsg) : Bool :=
  match log.getLast? with
  | some (LogMsg.summary _ _) => true
  | _ => false

/-- Numeric value of a decimal digit string (used to invert `natRepr`). -/
def valDigits (cs : List Char) : Nat :=
  cs.foldl (fun a c => 10 * a + (c.toNat - 48)) 0

theorem skipsItem_eq_false (e : Entry) (hd : e.isDir = false)
    (hn : e.name ≠ scriptName) : skipsItem e = false := by
  simp [skipsItem, hd, hn]

theorem processItem_not_skipped (fails : String → Bool) (st : OrgState)
    (e : Entry) (h : skipsItem e = false) :
    processItem fails st e = moveInto fails st e (destDirFor e) := by
  simp [processItem, h]

theorem destDirFor_of_age_le (e : Entry) (ha : e.ageDays ≤ 30) :
    destDirFor e = extClass (fileExt e.name) := by
  simp only [destDirFor, if_neg (show ¬ e.ageDays > 30 by omega)]

theorem extClass_of_find?_some (ext : String) (p : String × List String)
    (h : category_extensions.find? (fun q => q.2.contains ext) = some p) :
    extClass ext = p.1 := by
  unfold extClass
  rw [h]

theorem extClass_of_find?_none (ext : String)
    (h : category_extensions.find? (fun q => q.2.contains ext) = none) :
    extClass ext = "Others" := by
  unfold extClass
  rw [h]

theorem find?_eq_get_of_first {α : Type} (p : α → Bool) (l : List α) :
    ∀ (i : Nat) (hi : i < l.length), p (l.get ⟨i, hi⟩) = true →
      (∀ j (hj : j < l.length), j < i → p (l.get ⟨j, hj⟩) = false) →
      l.find? p = some (l.get ⟨i, hi⟩) := by
  induction l with
  | nil => intro i hi _ _; simp at hi
  | cons x xs ih =>
    intro i hi hp hmin
    cases i with
    | zero => simpa using List.find?_cons_of_pos _ (by simpa using hp)
    | succ i =>
      have hx : p x = false := by simpa using hmin 0 (by simp) (Nat.succ_pos i)
      rw [List.find?_cons_of_neg _ (by simp [hx])]
      simpa using ih i (Nat.lt_of_succ_lt_succ hi) (by simpa using hp)
        (fun j hj hji => by
          simpa using hmin (j + 1) (by simpa using Nat.succ_lt_succ hj) (by omega))

/-- C1: a processed entry (not a directory, not the script itself) older than
30 days is moved into the Old Files subdirectory regardless of its extension;
at exactly 30 days the age check does not fire and the entry falls through to
extension-based classification. -/
theorem age_over_30_moves_to_old_files (fails : String → Bool) (st : OrgState)
    (e : Entry) (hd : e.isDir = false) (hn : e.name ≠ scriptName) :
    (e.ageDays > 30 → processItem fails st e = moveInto fails st e "Old Files") ∧
    (e.ageDays = 30 →
      processItem fails st e = moveInto fails st e (extClass (fileExt e.name))) := by
  have hs := skipsItem_eq_false e hd hn
  constructor
  · intro h30
    rw [processItem_not_skipped fails st e hs]
    simp only [destDirFor, if_pos h30]
  · intro h30
    rw [processItem_not_skipped fails st e hs]
    rw [destDirFor_of_age_le e (by omega)]

theorem age_over_30_moves_to_old_files_witness :
    processItem (fun _ => false) ⟨[], [], 0, 0, []⟩ ⟨"photo.png", false, 45⟩
      = moveInto (fun _ => false) ⟨[], [], 0, 0, []⟩ ⟨"photo.png", false, 45⟩
          "Old Files" ∧
    processItem (fun _ => false) ⟨[], [], 0, 0, []⟩ ⟨"photo.png", false, 30⟩
      = moveInto (fun _ => false) ⟨[], [], 0, 0, []⟩ ⟨"photo.png", false, 30⟩
          (extClass (fileExt "photo.png")) :=
  ⟨(age_over_30_moves_to_old_files (fun _ => false) ⟨[], [], 0, 0, []⟩
      ⟨"photo.png", false, 45⟩ (by decide) (by decide)).1 (by decide),
   (age_over_30_moves_to_old_files (fun _ => false) ⟨[], [], 0, 0, []⟩
      ⟨"photo.png", false, 30⟩ (by decide) (by decide)).2 (by decide)⟩

/-- C2: a processed entry of age at most 30 days whose lowercased extension
belongs to some category is moved into the subdirectory of the first category,
in map definition order, whose extension list contains that extension. -/
theorem mapped_ext_moves_to_first_category (fails : String → Bool)
    (st : OrgState) (e : Entry) (hd : e.isDir = false) (hn : e.name ≠ scriptName)
    (ha : e.ageDays ≤ 30) (i : Nat) (hi : i < category_extensions.length)
    (hmem : fileExt e.name ∈ (category_extensions.get ⟨i, hi⟩).2)
    (hfirst : ∀ j (hj : j < category_extensions.length), j < i →
      fileExt e.name ∉ (category_extensions.get ⟨j, hj⟩).2) :
    processItem fails st e
      = moveInto fails st e (category_extensions.get ⟨i, hi⟩).1 := by
  rw [processItem_not_skipped fails st e (skipsItem_eq_false e hd hn)]
  rw [destDirFor_of_age_le e ha]
  have hfind : category_extensions.find? (fun p => p.2.contains (fileExt e.name))
      = some (category_extensions.get ⟨i, hi⟩) :=
    find?_eq_get_of_first _ _ i hi
      (by simpa [List.contains, List.elem_iff] using hmem)
      (fun j hj hji => by
        simpa [List.contains, List.elem_iff] using hfirst j hj hji)
  rw [extClass_of_find?_some _ _ hfind]

theorem mapped_ext_moves_to_first_category_witness :
    processItem (fun _ => false) ⟨[], [], 0, 0, []⟩ ⟨"report.pdf", false, 5⟩
      = moveInto (fun _ => false) ⟨[], [], 0, 0, []⟩ ⟨"report.pdf", false, 5⟩
          (category_extensions.get ⟨0, by decide⟩).1 ∧
    (category_extensions.get ⟨0, by decide⟩).1 = "Documents" :=
  ⟨mapped_ext_moves_to_first_category (fun _ => false) ⟨[], [], 0, 0, []⟩
      ⟨"report.pdf", false, 5⟩ (by decide) (by decide) (by decide) 0 (by decide)
      (by decide) (fun j hj hji => absurd hji (Nat.not_lt_zero j)),
   rfl⟩

/-- C3: a processed entry of age at most 30 days whose lowercased extension is
in no category is moved into the Others subdirectory. -/
theorem unmapped_ext_moves_to_others (fails : String → Bool) (st : OrgState)
    (e : Entry) (hd : e.isDir = false) (hn : e.name ≠ scriptName)
    (ha : e.ageDays ≤ 30)
    (hnone : ∀ p ∈ category_extensions, fileExt e.name ∉ p.2) :
    processItem fails st e = moveInto fails st e "Others" := by
  rw [processItem_not_skipped fails st e (skipsItem_eq_false e hd hn)]
  rw [destDirFor_of_age_le e ha]
  have hfind : category_extensions.find? (fun p => p.2.contains (fileExt e.name))
      = none :=
    List.find?_eq_none.mpr (fun p hp => by
      simpa [List.contains, List.elem_iff] using hnone p hp)
  rw [extClass_of_find?_none _ hfind]

theorem unmapped_ext_moves_to_others_witness :
    processItem (fun _ => false) ⟨[], [], 0, 0, []⟩ ⟨"data.xyz", false, 1⟩
      = moveInto (fun _ => false) ⟨[], [], 0, 0, []⟩ ⟨"data.xyz", false, 1⟩
          "Others" :=
  unmapped_ext_moves_to_others (fun _ => false) ⟨[], [], 0, 0, []⟩
    ⟨"data.xyz", false, 1⟩ (by decide) (by decide) (by decide) (by decide)

theorem lastDotIdx_eq_none (cs : List Char) (h : '.' ∉ cs) :
    lastDotIdx cs = none := by
  induction cs with
  | nil => rfl
  | cons c cs ih =>
    have hc : c ≠ '.' := fun hc => h (by simp [hc])
    have ht : '.' ∉ cs := fun ht => h (List.mem_cons_of_mem _ ht)
    simp [lastDotIdx, ih ht, hc]

theorem pySuffix_eq_empty (name : String)
    (h : ('.' ∉ name.toList) ∨
      (name.toList.head? = some '.' ∧ '.' ∉ name.toList.tail)) :
    pySuffix name = "" := by
  obtain ⟨cs⟩ := name
  rcases h with h | ⟨hh, ht⟩
  · have hnone : lastDotIdx cs = none := lastDotIdx_eq_none cs h
    simp [pySuffix, hnone]
  · rcases cs with _ | ⟨c, cs⟩
    · simp [pySuffix, lastDotIdx]
    · have hc : c = '.' := by simpa using hh
      have hnone : lastDotIdx cs = none := lastDotIdx_eq_none cs (by simpa using ht)
      simp [pySuffix, lastDotIdx, hnone, hc]

/-- C10: a processed entry of age at most 30 days whose name has no dot, or
only a leading dot, yields the empty extension and is moved into the Others
subdirectory. -/
theorem empty_ext_moves_to_others (fails : String → Bool) (st : OrgState)
    (e : Entry) (hd : e.isDir = false) (hn : e.name ≠ scriptName)
    (ha : e.ageDays ≤ 30)
    (hname : ('.' ∉ e.name.toList) ∨
      (e.name.toList.head? = some '.' ∧ '.' ∉ e.name.toList.tail)) :
    processItem fails st e = moveInto fails st e "Others" := by
  apply unmapped_ext_moves_to_others fails st e hd hn ha
  intro p hp
  have hfx : fileExt e.name = "" := by
    unfold fileExt
    rw [pySuffix_eq_empty e.name hname]
    rfl
  rw [hfx]
  have : ∀ p ∈ category_extensions, "" ∉ p.2 := by decide
  exact this p hp

theorem empty_ext_moves_to_others_witness :
    processItem (fun _ => false) ⟨[], [], 0, 0, []⟩ ⟨".bashrc", false, 1⟩
      = moveInto (fun _ => false) ⟨[], [], 0, 0, []⟩ ⟨".bashrc", false, 1⟩
          "Others" ∧
    processItem (fun _ => false) ⟨[], [], 0, 0, []⟩ ⟨"README", false, 1⟩
      = moveInto (fun _ => false) ⟨[], [], 0, 0, []⟩ ⟨"README", false, 1⟩
          "Others" :=
  ⟨empty_ext_moves_to_others (fun _ => false) ⟨[], [], 0, 0, []⟩
      ⟨".bashrc", false, 1⟩ (by decide) (by decide) (by decide)
      (Or.inr (by decide)),
   empty_ext_moves_to_others (fun _ => false) ⟨[], [], 0, 0, []⟩
      ⟨"README", false, 1⟩ (by decide) (by decide) (by decide)
      (Or.inl (by decide))⟩

/-- C5: when the target root does not exist, the run reports the error and
changes nothing — the returned filesystem is exactly the input one and the
only log line is the missing-root error. -/
theorem missing_root_aborts (fails : String → Bool) (fs : FS)
    (h : fs.rootExists = false) :
    organize_downloads fails fs = (fs, [LogMsg.rootMissing]) := by
  simp [organize_downloads, h]

theorem missing_root_aborts_witness :
    organize_downloads (fun _ => false)
        ⟨false, [⟨"report.pdf", false, 5⟩], []⟩
      = (⟨false, [⟨"report.pdf", false, 5⟩], []⟩, [LogMsg.rootMissing]) :=
  missing_root_aborts (fun _ => false) ⟨false, [⟨"report.pdf", false, 5⟩], []⟩
    (by decide)

theorem natDigitsCore_acc (fuel : Nat) : ∀ (n : Nat) (acc : List Char),
    natDigitsCore fuel n acc = natDigitsCore fuel n [] ++ acc := by
  induction fuel with
  | zero => intro n acc; rfl
  | succ fuel ih =>
    intro n acc
    by_cases h : n < 10
    · simp [natDigitsCore, h]
    · simp only [natDigitsCore, if_neg h]
      rw [ih (n / 10) (digitChar (n % 10) :: acc), ih (n / 10) [digitChar (n % 10)]]
      simp

theorem valDigits_append (cs : List Char) (c : Char) :
    valDigits (cs ++ [c]) = 10 * valDigits cs + (c.toNat - 48) := by
  simp [valDigits, List.foldl_append]

theorem digitChar_toNat (n : Nat) (h : n < 10) : (digitChar n).toNat = 48 + n := by
  interval_cases n <;> decide

theorem valDigits_natDigitsCore : ∀ (fuel n : Nat), n ≤ fuel →
    valDigits (natDigitsCore fuel n []) = n := by
  intro fuel
  induction fuel with
  | zero =>
    intro n h
    interval_cases n
    rfl
  | succ fuel ih =>
    intro n h
    by_cases h10 : n < 10
    · simp only [natDigitsCore, if_pos h10]
      show 10 * 0 + ((digitChar n).toNat - 48) = n
      rw [digitChar_toNat n h10]
      omega
    · have hdiv : n / 10 ≤ fuel := by
        have : n / 10 < n := Nat.div_lt_self (by omega) (by omega)
        omega
      simp only [natDigitsCore, if_neg h10]
      rw [natDigitsCore_acc, valDigits_append, ih (n / 10) hdiv,
        digitChar_toNat (n % 10) (Nat.mod_lt n (by omega))]
      omega

theorem natDigits_data_inj (m n : Nat)
    (h : natDigitsCore m m [] = natDigitsCore n n []) : m = n := by
  have hm := valDigits_natDigitsCore m m le_rfl
  rw [h, valDigits_natDigitsCore n n le_rfl] at hm
  omega

theorem candidate_inj (stem ext : String) {m n : Nat}
    (h : candidate stem ext m = candidate stem ext n) : m = n := by
  have hd := congrArg String.data h
  simp only [candidate, String.data_append, List.append_assoc] at hd
  have h1 := List.append_cancel_left hd
  have h2 := List.append_cancel_left h1
  have h3 := List.append_cancel_right h2
  exact natDigits_data_inj m n h3

theorem candidates_le_length (occupied : List String) (stem ext : String)
    (n : Nat)
    (hocc : ∀ m, 1 ≤ m → m < n → candidate stem ext m ∈ occupied) :
    n ≤ occupied.length + 1 := by
  rcases Nat.eq_zero_or_pos n with h0 | hpos
  · omega
  have hsub : (List.range' 1 (n - 1)).map (candidate stem ext) ⊆ occupied := by
    intro x hx
    rcases List.mem_map.mp hx with ⟨m, hm, rfl⟩
    rcases List.mem_range'_1.mp hm with ⟨h1, h2⟩
    exact hocc m h1 (by omega)
  have hnd : ((List.range' 1 (n - 1)).map (candidate stem ext)).Nodup := by
    apply List.Nodup.map
    · intro a b hab
      exact candidate_inj stem ext hab
    · exact List.nodup_range' 1 (n - 1) 1 Nat.one_pos
  have hlen := (List.subperm_of_subset hnd hsub).length_le
  simp only [List.length_map, List.length_range'] at hlen
  omega

theorem findFree_eq_some (occupied : List String) (stem ext : String) :
    ∀ (fuel counter n : Nat), counter ≤ n → n + 1 ≤ fuel + counter →
      candidate stem ext n ∉ occupied →
      (∀ m, counter ≤ m → m < n → candidate stem ext m ∈ occupied) →
      findFree occupied stem ext fuel counter = some n := by
  intro fuel
  induction fuel with
  | zero => intro counter n h1 h2 _ _; omega
  | succ fuel ih =>
    intro counter n h1 h2 hfree hocc
    by_cases hc : candidate stem ext counter ∈ occupied
    · have hcn : counter < n := by
        rcases Nat.lt_or_ge counter n with h | h
        · exact h
        · have he : counter = n := by omega
          exact absurd (he ▸ hc) hfree
      simp only [findFree, if_pos hc]
      exact ih (counter + 1) n (by omega) (by omega) hfree
        (fun m hm1 hm2 => hocc m (by omega) hm2)
    · have hcn : counter = n := by
        by_contra hne
        exact hc (hocc counter le_rfl (by omega))
      simp only [findFree, if_neg hc]
      rw [hcn]

/-- C4: moving onto an unoccupied destination keeps the original name; moving
onto an occupied one uses the name `stem_N.ext` for the smallest N from 1 on
that is unoccupied; every entry already present is still present afterward,
so nothing is ever overwritten. -/
theorem move_file_resolves_collisions (occupied : List String)
    (destName : String) (n : Nat) :
    (destName ∉ occupied → move_file occupied destName = destName :: occupied) ∧
    (∀ x ∈ occupied, x ∈ move_file occupied destName) ∧
    (destName ∈ occupied → 1 ≤ n →
      candidate (pyStem destName) (pySuffix destName) n ∉ occupied →
      (∀ m, 1 ≤ m → m < n →
        candidate (pyStem destName) (pySuffix destName) m ∈ occupied) →
      move_file occupied destName
        = candidate (pyStem destName) (pySuffix destName) n :: occupied) := by
  refine ⟨?_, ?_, ?_⟩
  · intro h
    simp [move_file, resolveDest, h]
  · intro x hx
    exact List.mem_cons_of_mem _ hx
  · intro hin hn1 hfree hocc
    have hff : findFree occupied (pyStem destName) (pySuffix destName)
        (occupied.length + 1) 1 = some n :=
      findFree_eq_some occupied _ _ (occupied.length + 1) 1 n hn1
        (by have := candidates_le_length occupied (pyStem destName)
              (pySuffix destName) n hocc
            omega)
        hfree hocc
    simp [move_file, resolveDest, hin, hff]

theorem move_file_resolves_collisions_witness :
    move_file [] "notes.txt" = ["notes.txt"] ∧
    move_file ["notes.txt"] "notes.txt" = ["notes_1.txt", "notes.txt"] ∧
    move_file ["notes_1.txt", "notes.txt"] "notes.txt"
      = ["notes_2.txt", "notes_1.txt", "notes.txt"] := by
  refine ⟨(move_file_resolves_collisions [] "notes.txt" 1).1 (by decide), ?_, ?_⟩
  · have h := (move_file_resolves_collisions ["notes.txt"] "notes.txt" 1).2.2
      (by decide) le_rfl (by decide) (fun m hm1 hm2 => absurd hm2 (by omega))
    have hc : candidate (pyStem "notes.txt") (pySuffix "notes.txt") 1
        = "notes_1.txt" := by decide
    rw [hc] at h
    exact h
  · have h := (move_file_resolves_collisions ["notes_1.txt", "notes.txt"]
        "notes.txt" 2).2.2
      (by decide) (by omega) (by decide)
      (fun m hm1 hm2 => by
        have hm : m = 1 := by omega
        subst hm
        decide)
    have hc : candidate (pyStem "notes.txt") (pySuffix "notes.txt") 2
        = "notes_2.txt" := by decide
    rw [hc] at h
    exact h

theorem mkdirIfAbsent_mem (st : List Entry × List LogMsg) (name : String)
    (e : Entry) (he : e ∈ st.1) : e ∈ (mkdirIfAbsent st name).1 := by
  unfold mkdirIfAbsent
  split
  · exact he
  · exact List.mem_append_left _ he

theorem mkdirIfAbsent_mem_rev (st : List Entry × List LogMsg) (name : String)
    (e : Entry) (he : e ∈ (mkdirIfAbsent st name).1) :
    e ∈ st.1 ∨ e.isDir = true := by
  unfold mkdirIfAbsent at he
  split at he
  · exact Or.inl he
  · rcases List.mem_append.mp he with h | h
    · exact Or.inl h
    · right
      have he2 : e = ⟨name, true, 0⟩ := by simpa using h
      rw [he2]

theorem foldl_mkdir_mono (names : List String) :
    ∀ (st : List Entry × List LogMsg) (e : Entry), e ∈ st.1 →
      e ∈ (names.foldl mkdirIfAbsent st).1 := by
  induction names with
  | nil => intro st e he; exact he
  | cons x xs ih =>
    intro st e he
    rw [List.foldl_cons]
    exact ih _ e (mkdirIfAbsent_mem st x e he)

theorem foldl_mkdir_mem (names : List String) :
    ∀ (st : List Entry × List LogMsg) (n : String), n ∈ names →
      ∃ e ∈ (names.foldl mkdirIfAbsent st).1,
        e.name = n ∧ (e.isDir = true ∨ e ∈ st.1) := by
  induction names with
  | nil => intro st n hn; exact absurd hn (List.not_mem_nil n)
  | cons x xs ih =>
    intro st n hn
    rw [List.foldl_cons]
    rcases List.mem_cons.mp hn with rfl | hn
    · by_cases h : st.1.any (fun e => e.name == n) = true
      · rcases List.any_eq_true.mp h with ⟨e, he, hbe⟩
        exact ⟨e, foldl_mkdir_mono xs _ e (mkdirIfAbsent_mem st n e he),
          by simpa using hbe, Or.inr he⟩
      · refine ⟨⟨n, true, 0⟩, ?_, rfl, Or.inl rfl⟩
        apply foldl_mkdir_mono
        unfold mkdirIfAbsent
        rw [if_neg h]
        exact List.mem_append_right _ (List.mem_singleton_self _)
    · rcases ih (mkdirIfAbsent st x) n hn with ⟨e, hmem, hname, hcase⟩
      refine ⟨e, hmem, hname, ?_⟩
      rcases hcase with hd | hmem2
      · exact Or.inl hd
      · rcases mkdirIfAbsent_mem_rev st x e hmem2 with h | h
        · exact Or.inr h
        · exact Or.inl h

theorem foldl_mkdir_noop (names : List String) :
    ∀ (entries : List Entry) (log : List LogMsg),
      (∀ n ∈ names, ∃ e ∈ entries, e.name = n) →
      names.foldl mkdirIfAbsent (entries, log) = (entries, log) := by
  induction names with
  | nil => intro entries log _; rfl
  | cons x xs ih =>
    intro entries log h
    rw [List.foldl_cons]
    have hx : mkdirIfAbsent (entries, log) x = (entries, log) := by
      rcases h x (List.mem_cons_self x xs) with ⟨e, he, hname⟩
      unfold mkdirIfAbsent
      rw [if_pos]
      exact List.any_eq_true.mpr ⟨e, he, by simp [hname]⟩
    rw [hx]
    exact ih entries log (fun n hn => h n (List.mem_cons_of_mem x hn))

/-- C6: preparation of an existing target root is idempotent — the nine
subdirectory names are exactly the seven categories plus Others and Old
Files; after one preparation each is present as a directory; preparing again
returns the same listing unchanged with an empty creation log. -/
theorem prepare_idempotent (entries : List Entry)
    (hdir : ∀ e ∈ entries, e.name ∈ catNames → e.isDir = true) :
    catNames = ["Documents", "Images", "Audio", "Video", "Archives", "Code",
      "Executables", "Others", "Old Files"] ∧
    (∀ n ∈ catNames, ∃ e ∈ (prepare entries).1, e.name = n ∧ e.isDir = true) ∧
    prepare (prepare entries).1 = ((prepare entries).1, []) := by
  refine ⟨by decide, ?_, ?_⟩
  · intro n hn
    rcases foldl_mkdir_mem catNames (entries, []) n hn with ⟨e, hmem, hname, hcase⟩
    refine ⟨e, hmem, hname, ?_⟩
    rcases hcase with hd | he
    · exact hd
    · exact hdir e he (hname ▸ hn)
  · show catNames.foldl mkdirIfAbsent ((prepare entries).1, [])
      = ((prepare entries).1, [])
    apply foldl_mkdir_noop
    intro n hn
    rcases foldl_mkdir_mem catNames (entries, []) n hn with ⟨e, hmem, hname, _⟩
    exact ⟨e, hmem, hname⟩

theorem prepare_idempotent_witness :
    prepare (prepare [(⟨"report.pdf", false, 5⟩ : Entry)]).1
      = ((prepare [(⟨"report.pdf", false, 5⟩ : Entry)]).1, []) :=
  (prepare_idempotent [⟨"report.pdf", false, 5⟩] (by decide)).2.2

theorem processItem_log (fails : String → Bool) (st : OrgState) (e : Entry) :
    (processItem fails st e).log = st.log ++
      (if skipsItem e then []
       else if fails e.name then [LogMsg.moveError e.name]
       else [LogMsg.movedTo e.name (destDirFor e)
          (resolveDest (subContents st.sub (destDirFor e)) e.name)]) := by
  unfold processItem moveInto
  by_cases hs : skipsItem e = true
  · simp [hs]
  · have hsf : skipsItem e = false := by simpa using hs
    by_cases hf : fails e.name = true
    · simp [hsf, hf]
    · have hff : fails e.name = false := by simpa using hf
      simp [hsf, hff]

theorem attemptsFor_append (name : String) (l1 l2 : List LogMsg) :
    attemptsFor name (l1 ++ l2) = attemptsFor name l1 + attemptsFor name l2 := by
  simp [attemptsFor, List.filter_append]

theorem attemptsFor_processItem (fails : String → Bool) (name : String)
    (st : OrgState) (e : Entry) :
    attemptsFor name (processItem fails st e).log
      = attemptsFor name st.log
        + (if !skipsItem e && e.name == name then 1 else 0) := by
  rw [processItem_log, attemptsFor_append]
  by_cases hs : skipsItem e = true
  · simp [hs, attemptsFor]
  · have hsf : skipsItem e = false := by simpa using hs
    by_cases he : (e.name == name) = true
    · by_cases hf : fails e.name = true
      · simp [hsf, hf, he, attemptsFor, isAttemptOn]
      · have hff : fails e.name = false := by simpa using hf
        simp [hsf, hff, he, attemptsFor, isAttemptOn]
    · have hef : (e.name == name) = false := by simpa using he
      by_cases hf : fails e.name = true
      · simp [hsf, hf, hef, attemptsFor, isAttemptOn]
      · have hff : fails e.name = false := by simpa using hf
        simp [hsf, hff, hef, attemptsFor, isAttemptOn]

theorem attemptsFor_foldl (fails : String → Bool) (name : String) :
    ∀ (l : List Entry) (st : OrgState),
      attemptsFor name (l.foldl (processItem fails) st).log
        = attemptsFor name st.log
          + l.countP (fun e => !skipsItem e && e.name == name) := by
  intro l
  induction l with
  | nil => intro st; simp
  | cons e l ih =>
    intro st
    rw [List.foldl_cons, ih, attemptsFor_processItem, List.countP_cons]
    by_cases hp : (!skipsItem e && e.name == name) = true
    · simp only [hp, if_true]
      omega
    · have hpf : (!skipsItem e && e.name == name) = false := by simpa using hp
      simp only [hpf, Bool.false_eq_true, if_false]
      omega

theorem log_mem_processItem (fails : String → Bool) (st : OrgState) (e : Entry)
    (m : LogMsg) (hm : m ∈ st.log) : m ∈ (processItem fails st e).log := by
  rw [processItem_log]
  exact List.mem_append_left _ hm

theorem log_mem_foldl (fails : String → Bool) :
    ∀ (l : List Entry) (st : OrgState) (m : LogMsg), m ∈ st.log →
      m ∈ (l.foldl (processItem fails) st).log := by
  intro l
  induction l with
  | nil => intro st m hm; exact hm
  | cons e l ih =>
    intro st m hm
    rw [List.foldl_cons]
    exact ih _ m (log_mem_processItem fails st e m hm)

theorem moveError_mem_foldl (fails : String → Bool) :
    ∀ (l : List Entry) (st : OrgState) (e : Entry), e ∈ l →
      skipsItem e = false → fails e.name = true →
      LogMsg.moveError e.name ∈ (l.foldl (processItem fails) st).log := by
  intro l
  induction l with
  | nil => intro st e he; exact absurd he (List.not_mem_nil e)
  | cons x l ih =>
    intro st e he hs hf
    rw [List.foldl_cons]
    rcases List.mem_cons.mp he with rfl | he
    · apply log_mem_foldl
      rw [processItem_log]
      apply List.mem_append_right
      simp [hs, hf]
    · exact ih _ e he hs hf

theorem root_mem_processItem (fails : String → Bool) (st : OrgState)
    (x e : Entry) (he : e ∈ st.root) (hs : skipsItem e = true) :
    e ∈ (processItem fails st x).root := by
  unfold processItem moveInto
  by_cases hx : skipsItem x = true
  · simp only [hx, if_true]
    exact he
  · have hxf : skipsItem x = false := by simpa using hx
    by_cases hf : fails x.name = true
    · simp only [hxf, Bool.false_eq_true, if_false, hf, if_true]
      exact he
    · have hff : fails x.name = false := by simpa using hf
      simp only [hxf, hff, Bool.false_eq_true, if_false]
      show e ∈ st.root.erase x
      have hne : e ≠ x := fun hex => by simp [hex ▸ hs] at hxf
      exact (List.mem_erase_of_ne hne).mpr he

theorem root_mem_foldl (fails : String → Bool) :
    ∀ (l : List Entry) (st : OrgState) (e : Entry), e ∈ st.root →
      skipsItem e = true → e ∈ (l.foldl (processItem fails) st).root := by
  intro l
  induction l with
  | nil => intro st e he _; exact he
  | cons x l ih =>
    intro st e he hs
    rw [List.foldl_cons]
    exact ih _ e (root_mem_processItem fails st x e he hs) hs

theorem countP_name_le_one (l : List Entry) (name : String)
    (hnd : (l.map Entry.name).Nodup) :
    l.countP (fun e => e.name == name) ≤ 1 := by
  have h1 : l.countP (fun e => e.name == name)
      = (l.map Entry.name).countP (· == name) := by
    rw [List.countP_map]
    rfl
  rw [h1, ← List.count_eq_countP]
  exact List.nodup_iff_count_le_one.mp hnd name

theorem attemptsFor_mkdir_foldl (name : String) :
    ∀ (names : List String) (st : List Entry × List LogMsg),
      attemptsFor name (names.foldl mkdirIfAbsent st).2
        = attemptsFor name st.2 := by
  intro names
  induction names with
  | nil => intro st; rfl
  | cons x xs ih =>
    intro st
    rw [List.foldl_cons, ih]
    unfold mkdirIfAbsent
    split
    · rfl
    · show attemptsFor name (st.2 ++ [LogMsg.createdDir x]) = attemptsFor name st.2
      rw [attemptsFor_append]
      simp [attemptsFor, isAttemptOn]

theorem organize_eq (fails : String → Bool) (fs : FS)
    (h : fs.rootExists = true) :
    organize_downloads fails fs
      = ({ rootExists := true, rootEntries := (runState fails fs).root,
           subFiles := (runState fails fs).sub },
         (runState fails fs).log
           ++ [LogMsg.summary (runState fails fs).moved
                 (runState fails fs).skipped]) := by
  simp [organize_downloads, runState, h]

theorem endsWithSummary_concat (log : List LogMsg) (m s : Nat) :
    endsWithSummary (log ++ [LogMsg.summary m s]) = true := by
  simp [endsWithSummary, List.getLast?_concat]

theorem attemptsFor_summary (name : String) (log : List LogMsg) (m s : Nat) :
    attemptsFor name (log ++ [LogMsg.summary m s]) = attemptsFor name log := by
  rw [attemptsFor_append]
  simp [attemptsFor, isAttemptOn]

theorem attemptsFor_run (fails : String → Bool) (fs : FS) (name : String)
    (h : fs.rootExists = true) :
    attemptsFor name (organize_downloads fails fs).2
      = (prepare fs.rootEntries).1.countP
          (fun e => !skipsItem e && e.name == name) := by
  rw [organize_eq fails fs h]
  dsimp only
  rw [attemptsFor_summary]
  unfold runState
  rw [attemptsFor_foldl]
  have hp : attemptsFor name (prepare fs.rootEntries).2 = 0 := by
    unfold prepare
    rw [attemptsFor_mkdir_foldl]
    rfl
  dsimp only at hp ⊢
  rw [hp]
  omega

/-- C7: a failing move is caught at the move call — the error is logged for
that file, the loop continues over all remaining entries, the run always ends
with the summary line, and every processed file gets exactly one move attempt
in the run (no retry). -/
theorem per_file_failure_is_contained (fails : String → Bool) (fs : FS)
    (h : fs.rootExists = true)
    (hnd : ((prepare fs.rootEntries).1.map Entry.name).Nodup) :
    endsWithSummary (organize_downloads fails fs).2 = true ∧
    (∀ e ∈ (prepare fs.rootEntries).1, skipsItem e = false →
      attemptsFor e.name (organize_downloads fails fs).2 = 1 ∧
      (fails e.name = true →
        LogMsg.moveError e.name ∈ (organize_downloads fails fs).2)) := by
  constructor
  · rw [organize_eq fails fs h]
    dsimp only
    exact endsWithSummary_concat _ _ _
  · intro e he hs
    constructor
    · rw [attemptsFor_run fails fs e.name h]
      have hge : 0 < (prepare fs.rootEntries).1.countP
          (fun x => !skipsItem x && x.name == e.name) :=
        List.countP_pos_iff.mpr ⟨e, he, by simp [hs]⟩
      have hle : (prepare fs.rootEntries).1.countP
            (fun x => !skipsItem x && x.name == e.name)
          ≤ (prepare fs.rootEntries).1.countP (fun x => x.name == e.name) :=
        List.countP_mono_left (fun x _ hx => by
          simp only [Bool.and_eq_true] at hx
          exact hx.2)
      have h1 := countP_name_le_one _ e.name hnd
      omega
    · intro hf
      rw [organize_eq fails fs h]
      dsimp only
      apply List.mem_append_left
      unfold runState
      exact moveError_mem_foldl fails _ _ e he hs hf

set_option maxHeartbeats 2000000 in
theorem per_file_failure_is_contained_witness :
    endsWithSummary (organize_downloads (fun s => s == "a.txt")
        ⟨true, [⟨"a.txt", false, 0⟩, ⟨"b.txt", false, 0⟩], []⟩).2 = true ∧
    attemptsFor "a.txt" (organize_downloads (fun s => s == "a.txt")
        ⟨true, [⟨"a.txt", false, 0⟩, ⟨"b.txt", false, 0⟩], []⟩).2 = 1 ∧
    LogMsg.moveError "a.txt" ∈ (organize_downloads (fun s => s == "a.txt")
        ⟨true, [⟨"a.txt", false, 0⟩, ⟨"b.txt", false, 0⟩], []⟩).2 ∧
    attemptsFor "b.txt" (organize_downloads (fun s => s == "a.txt")
        ⟨true, [⟨"a.txt", false, 0⟩, ⟨"b.txt", false, 0⟩], []⟩).2 = 1 := by
  have hmain := per_file_failure_is_contained (fun s => s == "a.txt")
    ⟨true, [⟨"a.txt", false, 0⟩, ⟨"b.txt", false, 0⟩], []⟩ (by decide) (by decide)
  have ha := hmain.2 ⟨"a.txt", false, 0⟩ (by decide) (by decide)
  have hb := hmain.2 ⟨"b.txt", false, 0⟩ (by decide) (by decide)
  exact ⟨hmain.1, ha.1, ha.2 (by decide), hb.1⟩

set_option maxHeartbeats 2000000 in
/-- C9: every listed entry that is a directory or is the script itself is
skipped by the run — it is still present in the root afterward and the log
records no move attempt on it. -/
theorem skipped_entries_untouched (fails : String → Bool) (fs : FS)
    (h : fs.rootExists = true)
    (hnd : ((prepare fs.rootEntries).1.map Entry.name).Nodup) :
    ∀ e ∈ (prepare fs.rootEntries).1, skipsItem e = true →
      e ∈ (organize_downloads fails fs).1.rootEntries ∧
      attemptsFor e.name (organize_downloads fails fs).2 = 0 := by
  intro e he hs
  constructor
  · rw [organize_eq fails fs h]
    dsimp only
    unfold runState
    exact root_mem_foldl fails _ _ e he hs
  · rw [attemptsFor_run fails fs e.name h]
    rw [List.countP_eq_zero]
    intro x hx hpx
    simp only [Bool.and_eq_true] at hpx
    have hx2 := hpx
    have hxe : x = e :=
      List.inj_on_of_nodup_map hnd hx he (by simpa using hx2.2)
    rw [hxe] at hx2
    exact absurd hx2.1 (by simp [hs])

set_option maxHeartbeats 2000000 in
theorem skipped_entries_untouched_witness :
    (⟨"mydir", true, 99⟩ : Entry) ∈
      (organize_downloads (fun _ => false)
        ⟨true, [⟨"mydir", true, 99⟩, ⟨"sorting_script.py", false, 1⟩], []⟩).1.rootEntries ∧
    attemptsFor "mydir" (organize_downloads (fun _ => false)
        ⟨true, [⟨"mydir", true, 99⟩, ⟨"sorting_script.py", false, 1⟩], []⟩).2 = 0 ∧
    (⟨"sorting_script.py", false, 1⟩ : Entry) ∈
      (organize_downloads (fun _ => false)
        ⟨true, [⟨"mydir", true, 99⟩, ⟨"sorting_script.py", false, 1⟩], []⟩).1.rootEntries := by
  have hd := skipped_entries_untouched (fun _ => false)
    ⟨true, [⟨"mydir", true, 99⟩, ⟨"sorting_script.py", false, 1⟩], []⟩
    (by decide) (by decide) ⟨"mydir", true, 99⟩ (by decide) (by decide)
  have hscript := skipped_entries_untouched (fun _ => false)
    ⟨true, [⟨"mydir", true, 99⟩, ⟨"sorting_script.py", false, 1⟩], []⟩
    (by decide) (by decide) ⟨"sorting_script.py", false, 1⟩ (by decide) (by decide)
  exact ⟨hd.1, hd.2, hscript.1⟩

set_option maxHeartbeats 2000000 in
/-- C8: the code contradicts the claimed summary semantics. On a root holding
only the script file, one entry is skipped yet the summary line reports
`0 files skipped` (the counter is never incremented); and on a root holding
one file whose move fails, the summary reports `1 files moved` although the
file was never moved and is still in the root (the moved counter counts
attempts, not completed moves). -/
theorem summary_counters_diverge :
    (organize_downloads (fun _ => false)
        ⟨true, [⟨"sorting_script.py", false, 1⟩], []⟩).2.getLast?
      = some (LogMsg.summary 0 0) ∧
    (organize_downloads (fun _ => true)
        ⟨true, [⟨"report.pdf", false, 5⟩], []⟩).2.getLast?
      = some (LogMsg.summary 1 0) ∧
    (⟨"report.pdf", false, 5⟩ : Entry) ∈
      (organize_downloads (fun _ => true)
        ⟨true, [⟨"report.pdf", false, 5⟩], []⟩).1.rootEntries := by
  refine ⟨?_, ?_, ?_⟩ <;> decide

end Organizer
